import Mathlib

/-!
Verification of the slashing-detection engine specification against the
repository code.

The repository contains, under its visible sources, the slasher test suite
(grouping, attestation integrity, double proposal, event logging), a bolt
database migration (migrateArchivedIndex) and beacon-state field-trie helpers
(HandleEth1DataSlice).  The slasher implementation functions themselves are
not among the visible sources (only their tests are), so those operations are
modelled from the specification; the migration and the field-trie helper are
embedded directly from their Go sources.

Machine integers: Go uint64 values (epochs, slots, validator indices) are
modelled as Nat; none of the verified operations performs wrapping arithmetic
on them except the explicit big-endian byte split, which is written with
explicit division and remainder.
-/

/-- Byte strings (bolt keys and values, signing roots) are lists of byte
values. -/
abbrev Bytes := List Nat

/-- Signing roots are 32-byte values; modelled as byte lists. -/
abbrev Root := List Nat

/-- Modelled from the spec: the zero-hash sentinel (params.BeaconConfig().ZeroHash),
an all-zero 32-byte root meaning "no real record yet". -/
def zeroHash : Root := List.replicate 32 0

/-- Modelled from the spec: the Slashing.Kind enumeration of the slasher types
package (absent from the visible sources), listing the finding kinds of the
data model together with the NotSlashable non-finding sentinel. -/
inductive SlashingKind where
  | NotSlashable
  | DoubleVote
  | SurroundingVote
  | SurroundedVote
  | DoubleProposal
deriving DecidableEq

/-- Modelled from the spec: the outcome contract of the Surround Detector
(the chunked min and max span implementation is absent from the visible
sources).  A new attestation with source s and target t from a validator is a
SurroundingVote when it strictly encloses some recorded prior attestation
(s < prior source and prior target < t), a SurroundedVote when some recorded
prior attestation strictly encloses it (prior source < s and t < prior
target), and otherwise yields no surround finding. -/
def surroundClassify (history : List (Nat × Nat)) (s t : Nat) : SlashingKind :=
  if history.any (fun prior => decide (s < prior.1) && decide (prior.2 < t)) then
    SlashingKind.SurroundingVote
  else if history.any (fun prior => decide (prior.1 < s) && decide (t < prior.2)) then
    SlashingKind.SurroundedVote
  else
    SlashingKind.NotSlashable

/-- Checkpoint of an attestation, carrying an epoch. -/
structure Checkpoint where
  epoch : Nat
deriving DecidableEq

/-- Attestation data with possibly absent source and target checkpoints
(Go nil pointers become none). -/
structure AttestationData where
  source : Option Checkpoint
  target : Option Checkpoint
deriving DecidableEq

/-- Indexed attestation with possibly absent data (a Go nil pointer becomes
none). -/
structure IndexedAttestation where
  data : Option AttestationData
deriving DecidableEq

/-- Modelled from the spec: validateAttestationIntegrity, the gate run before
any detector sees an attestation (implementation absent from the visible
sources, exercised by its test).  Rejects an absent attestation, absent data,
an absent source or target checkpoint, and a source epoch that is not below
the target epoch, except for the genesis special case where both epochs are
zero. -/
def validateAttestationIntegrity (att : Option IndexedAttestation) : Bool :=
  match att with
  | none => false
  | some a =>
    match a.data with
    | none => false
    | some d =>
      match d.source, d.target with
      | some src, some tgt =>
          (src.epoch == 0 && tgt.epoch == 0) || decide (src.epoch < tgt.epoch)
      | _, _ => false

/-- Modelled from the spec: isDoubleProposal (implementation absent from the
visible sources, exercised by its test).  A double proposal is flagged exactly
when the existing signing root is neither the zero-hash sentinel nor byte
equal to the incoming signing root. -/
def isDoubleProposal (incomingSigningRoot existingSigningRoot : Root) : Bool :=
  !(existingSigningRoot == zeroHash) && !(incomingSigningRoot == existingSigningRoot)

/-- Modelled from the spec: one step of the Double-Vote Detector for a single
key (validator and target epoch), reusing the same root comparison as the
double-proposal check.  The detector compares the incoming signing root with
the recorded one, emits DoubleVote only when the recorded root is a real,
different record, and records the incoming root. -/
def deliverVote (recordedRoot : Option Root) (incomingRoot : Root) :
    SlashingKind × Option Root :=
  match recordedRoot with
  | none => (SlashingKind.NotSlashable, some incomingRoot)
  | some r =>
    if isDoubleProposal incomingRoot r then
      (SlashingKind.DoubleVote, some incomingRoot)
    else
      (SlashingKind.NotSlashable, some incomingRoot)

/-- Modelled from the spec: the CompactAttestation record of the slasher types
package (attesting indices, source epoch, target epoch, signing root). -/
structure CompactAttestation where
  attestingIndices : List Nat
  source : Nat
  target : Nat
  signingRoot : Root
deriving DecidableEq

/-- Modelled from the spec: the Parameters record controlling chunk geometry. -/
structure Parameters where
  chunkSize : Nat
  validatorChunkSize : Nat
  historyLength : Nat
deriving DecidableEq

/-- Modelled from the spec: validator chunk index of a validator index,
integer division by the validator chunk size. -/
def validatorChunkIndex (p : Parameters) (validatorIndex : Nat) : Nat :=
  validatorIndex / p.validatorChunkSize

/-- Modelled from the spec: epoch chunk index of an epoch, wrap-around
addressing over the retained window followed by integer division by the chunk
size. -/
def chunkIndex (p : Parameters) (epoch : Nat) : Nat :=
  (epoch % p.historyLength) / p.chunkSize

/-- Appends an attestation to the bucket of the given key in a bucket map
represented as an association list, allocating the bucket at first use. -/
def addToBucket (m : List (Nat × List CompactAttestation)) (key : Nat)
    (a : CompactAttestation) : List (Nat × List CompactAttestation) :=
  match m with
  | [] => [(key, [a])]
  | (k, l) :: rest =>
    if k = key then (k, l ++ [a]) :: rest else (k, l) :: addToBucket rest key a

/-- Reads the bucket of the given key from a bucket map; an absent bucket
reads as the empty list. -/
def bucketOf (m : List (Nat × List CompactAttestation)) (key : Nat) :
    List CompactAttestation :=
  match m with
  | [] => []
  | (k, l) :: rest => if k = key then l else bucketOf rest key

/-- Modelled from the spec: the shape shared by both grouping operations.
Each attestation of the batch is appended, in batch order, to the bucket of
every key the key function assigns to it; no placeholder buckets are
allocated. -/
def groupAttestations (keysOf : CompactAttestation → List Nat)
    (atts : List CompactAttestation) : List (Nat × List CompactAttestation) :=
  atts.foldl (fun m a => (keysOf a).foldl (fun m2 c => addToBucket m2 c a) m) []

/-- Modelled from the spec: groupByValidatorChunkIndex (implementation absent
from the visible sources, exercised by its test).  An attestation is placed
once per distinct validator chunk touched by its attesting indices. -/
def groupByValidatorChunkIndex (p : Parameters) (atts : List CompactAttestation) :
    List (Nat × List CompactAttestation) :=
  groupAttestations
    (fun a => (a.attestingIndices.map (validatorChunkIndex p)).dedup) atts

/-- Modelled from the spec: groupByChunkIndex (implementation absent from the
visible sources, exercised by its test).  Each attestation is placed in the
single bucket of the epoch chunk index of its source epoch. -/
def groupByChunkIndex (p : Parameters) (atts : List CompactAttestation) :
    List (Nat × List CompactAttestation) :=
  groupAttestations (fun a => [chunkIndex p a.source]) atts

/-- Modelled from the spec: a slashing finding with its kind and the offending
validator index. -/
structure Slashing where
  kind : SlashingKind
  validatorIndex : Nat
deriving DecidableEq

/-- Structured observable event emitted for a finding: the human-readable
classification and the validator index. -/
structure SlashingEvent where
  message : String
  validatorIndex : Nat
deriving DecidableEq

/-- Modelled from the spec: logSlashingEvent (implementation absent from the
visible sources, exercised by its test).  Each finding kind other than
NotSlashable produces exactly one structured event carrying its
human-readable classification and the validator index; NotSlashable produces
no observable output. -/
def logSlashingEvent (sl : Slashing) : List SlashingEvent :=
  match sl.kind with
  | SlashingKind.SurroundingVote => [⟨"Attester surrounding vote", sl.validatorIndex⟩]
  | SlashingKind.SurroundedVote => [⟨"Attester surrounded vote", sl.validatorIndex⟩]
  | SlashingKind.DoubleVote => [⟨"Attester double vote", sl.validatorIndex⟩]
  | SlashingKind.DoubleProposal => [⟨"Proposer double proposal", sl.validatorIndex⟩]
  | SlashingKind.NotSlashable => []

/-- Looks up a key in a bucket modelled as an association list of byte-string
keys and values (bolt Get: an absent key reads as nil). -/
def assocGet (m : List (Bytes × Bytes)) (k : Bytes) : Option Bytes :=
  match m with
  | [] => none
  | (k2, v) :: rest => if k2 = k then some v else assocGet rest k

/-- Writes a key and value into a bucket (bolt Put: replaces the value of an
existing key, otherwise adds the key). -/
def assocPut (m : List (Bytes × Bytes)) (k v : Bytes) : List (Bytes × Bytes) :=
  match m with
  | [] => [(k, v)]
  | (k2, v2) :: rest =>
    if k2 = k then (k2, v) :: rest else (k2, v2) :: assocPut rest k v

/-- Removes a key from a bucket (bolt Delete; keys are unique within a
bucket). -/
def assocDelete (m : List (Bytes × Bytes)) (k : Bytes) : List (Bytes × Bytes) :=
  match m with
  | [] => []
  | (k2, v2) :: rest =>
    if k2 = k then rest else (k2, v2) :: assocDelete rest k

/-- Key under which the archive_index_0 migration records completion, the
byte string "archive_index_0" (package-level constant of the kv package). -/
def migrationArchivedIndex0Key : Bytes :=
  [97, 114, 99, 104, 105, 118, 101, 95, 105, 110, 100, 101, 120, 95, 48]

/-- Completion marker value written into the migrations bucket, the byte
string "done" (package-level constant of the kv package; its exact value is
irrelevant to the properties proved, only that it is a fixed nonempty byte
string). -/
def migrationCompleted : Bytes := [100, 111, 110, 101]

/-- Key of the deprecated last-archived-index entry removed before iterating
(package-level constant of the kv package). -/
def lastArchivedIndexKey : Bytes :=
  [108, 97, 115, 116, 45, 97, 114, 99, 104, 105, 118, 101, 100]

/-- Big-endian eight-byte encoding of a slot
(bytesutil.SlotToBytesBigEndian). -/
def slotToBytesBigEndian (s : Nat) : Bytes :=
  [s / 2 ^ 56 % 256, s / 2 ^ 48 % 256, s / 2 ^ 40 % 256, s / 2 ^ 32 % 256,
   s / 2 ^ 24 % 256, s / 2 ^ 16 % 256, s / 2 ^ 8 % 256, s % 256]

/-- State of the bolt transaction as seen by migrateArchivedIndex: the five
buckets it touches.  The migrations, blocks and state-slot-indices buckets
are accessed unconditionally by the Go code and so are modelled as always
present; the archived-root and slots-has-object buckets are checked for
existence and deletable, so they are modelled as optional. -/
structure BoltDB where
  migrations : List (Bytes × Bytes)
  archivedRoot : Option (List (Bytes × Bytes))
  blocks : List (Bytes × Bytes)
  stateSlotIndices : List (Bytes × Bytes)
  slotsHasObject : Option (List (Bytes × Bytes))
deriving DecidableEq

/-- Cursor loop of migrateArchivedIndex over the archived-root bucket
entries: for each entry, the block stored under its value is looked up;
entries without a block are skipped; a decode failure aborts with its error;
otherwise the state-slot-indices bucket gains the big-endian slot of the
decoded block as key with the block root as value.  The decode of a stored
block into its slot is the external codec of the kv package, passed in as a
function.  The Go loop also tracks the highest decoded slot in a local
variable that is never read afterwards; it has no effect on the transaction
and is not modelled. -/
def migrateLoop (decode : Bytes → Except String Nat) (blocks : List (Bytes × Bytes)) :
    List (Bytes × Bytes) → List (Bytes × Bytes) → Except String (List (Bytes × Bytes))
  | [], ssi => Except.ok ssi
  | (_, v) :: rest, ssi =>
    match assocGet blocks v with
    | none => migrateLoop decode blocks rest ssi
    | some b =>
      match decode b with
      | Except.error e => Except.error e
      | Except.ok slot =>
          migrateLoop decode blocks rest (assocPut ssi (slotToBytesBigEndian slot) v)

/-- Embedding of migrateArchivedIndex (src/beacon-chain/db/kv/migration_archived_index.go).
Returns immediately when the migrations bucket records the migration as
completed; returns immediately when the archived-root bucket is absent;
otherwise removes the last-archived-index key, reindexes every archived root
by block slot into the state-slot-indices bucket, deletes the deprecated
slots-has-object and archived-root buckets, and marks the migration
completed. -/
def migrateArchivedIndex (decode : Bytes → Except String Nat) (db : BoltDB) :
    Except String BoltDB :=
  if assocGet db.migrations migrationArchivedIndex0Key = some migrationCompleted then
    Except.ok db
  else
    match db.archivedRoot with
    | none => Except.ok db
    | some bkt =>
      match migrateLoop decode db.blocks (assocDelete bkt lastArchivedIndexKey)
          db.stateSlotIndices with
      | Except.error e => Except.error e
      | Except.ok ssi =>
          Except.ok
            { migrations :=
                assocPut db.migrations migrationArchivedIndex0Key migrationCompleted,
              archivedRoot := none,
              blocks := db.blocks,
              stateSlotIndices := ssi,
              slotsHasObject := none }

/-- Eth1 data element of the beacon state (fields of ethpb.Eth1Data); list
elements are pointers in Go, so the slices below hold optional values. -/
structure Eth1Data where
  depositRoot : Bytes
  depositCount : Nat
  blockHash : Bytes
deriving DecidableEq

/-- Errors of HandleEth1DataSlice: the index-out-of-range error constructed
by the function itself, carrying the offending index and the slice length,
or an error propagated from the root computation. -/
inductive Eth1SliceError where
  | indexOutOfRange (idx : Nat) (count : Nat)
  | rootError (code : Nat)
deriving DecidableEq

/-- Loop of HandleEth1DataSlice over the whole value slice when convertAll is
set: computes the root of every element in order, aborting on the first root
error. -/
def convertAllLoop (rootFn : Option Eth1Data → Except Eth1SliceError Root) :
    List (Option Eth1Data) → Except Eth1SliceError (List Root)
  | [] => Except.ok []
  | d :: rest =>
    match rootFn d with
    | Except.error e => Except.error e
    | Except.ok r =>
      match convertAllLoop rootFn rest with
      | Except.error e => Except.error e
      | Except.ok rs => Except.ok (r :: rs)

/-- Loop of HandleEth1DataSlice over the requested indices when convertAll is
not set: each index is bounds-checked against the value slice (the Go check
idx > len(val)-1 runs with len(val) at least one and equals len(val) <= idx),
and the root of the element at the index is appended, aborting on the first
error. -/
def indicesLoop (rootFn : Option Eth1Data → Except Eth1SliceError Root)
    (val : List (Option Eth1Data)) : List Nat → Except Eth1SliceError (List Root)
  | [] => Except.ok []
  | idx :: rest =>
    if val.length ≤ idx then
      Except.error (Eth1SliceError.indexOutOfRange idx val.length)
    else
      match rootFn (val.getD idx none) with
      | Except.error e => Except.error e
      | Except.ok r =>
        match indicesLoop rootFn val rest with
        | Except.error e => Except.error e
        | Except.ok rs => Except.ok (r :: rs)

/-- Embedding of HandleEth1DataSlice (src/beacon-chain/state/v1/field_trie_helpers.go).
The per-element root computation (eth1Root with its hasher) is beacon-state
Merkleization machinery outside the visible sources and, per the
specification, an opaque compute-root operation; it is passed in as a
function.  With convertAll set the whole slice is converted; otherwise the
requested indices are converted, and with an empty value slice the index
loop is skipped entirely and the empty root list is returned. -/
def HandleEth1DataSlice (rootFn : Option Eth1Data → Except Eth1SliceError Root)
    (val : List (Option Eth1Data)) (indices : List Nat) (convertAll : Bool) :
    Except Eth1SliceError (List Root) :=
  if convertAll then
    convertAllLoop rootFn val
  else if 0 < val.length then
    indicesLoop rootFn val indices
  else
    Except.ok []

/-- Concrete signing root with first byte one, as in the tests. -/
def root1 : Root := 1 :: List.replicate 31 0

/-- Concrete signing root with first byte two, as in the tests. -/
def root2 : Root := 2 :: List.replicate 31 0

/-- C1 counterexample: with history (1, 10) already applied, the new
attestation (2, 9) is strictly enclosed by the prior one, so the detector
emits a SurroundedVote rather than no surround finding as the claim states. -/
theorem surroundClassify_c1_counterexample :
    surroundClassify [(1, 10)] 2 9 = SlashingKind.SurroundedVote ∧
      SlashingKind.SurroundedVote ≠ SlashingKind.NotSlashable := by
  decide

/-- C1 (amended): for a history of a single applied attestation (s2, t2), a
new attestation (s, t) is classified SurroundingVote exactly when s < s2 and
t2 < t, SurroundedVote exactly when s2 < s and t < t2, and yields no surround
finding exactly when neither strict enclosure holds; in particular history
(1, 10) with new attestation (2, 9) yields a SurroundedVote, since it is
strictly enclosed. -/
theorem surroundClassify_single (s t s2 t2 : Nat) :
    (surroundClassify [(s2, t2)] s t = SlashingKind.SurroundingVote ↔
        s < s2 ∧ t2 < t) ∧
      (surroundClassify [(s2, t2)] s t = SlashingKind.SurroundedVote ↔
        s2 < s ∧ t < t2) ∧
      (surroundClassify [(s2, t2)] s t = SlashingKind.NotSlashable ↔
        ¬(s < s2 ∧ t2 < t) ∧ ¬(s2 < s ∧ t < t2)) ∧
      surroundClassify [(1, 10)] 2 9 = SlashingKind.SurroundedVote := by
  refine ⟨?_, ?_, ?_, by decide⟩ <;>
  · simp only [surroundClassify, List.any_cons, List.any_nil, Bool.or_false,
      Bool.and_eq_true, decide_eq_true_eq]
    split_ifs with h1 h2 <;> simp_all <;> omega

/-- C2: validateAttestationIntegrity rejects an absent attestation, absent
data, and an absent source or target checkpoint, and on an attestation with
both checkpoints present it accepts exactly when the source epoch is below
the target epoch or both epochs are zero. -/
theorem validateAttestationIntegrity_c2 (se te : Nat) :
    validateAttestationIntegrity none = false ∧
      validateAttestationIntegrity (some ⟨none⟩) = false ∧
      validateAttestationIntegrity (some ⟨some ⟨none, none⟩⟩) = false ∧
      validateAttestationIntegrity (some ⟨some ⟨none, some ⟨te⟩⟩⟩) = false ∧
      validateAttestationIntegrity (some ⟨some ⟨some ⟨se⟩, none⟩⟩) = false ∧
      (validateAttestationIntegrity (some ⟨some ⟨some ⟨se⟩, some ⟨te⟩⟩⟩) = true ↔
        se < te ∨ (se = 0 ∧ te = 0)) := by
  refine ⟨rfl, rfl, rfl, rfl, rfl, ?_⟩
  simp only [validateAttestationIntegrity, Bool.or_eq_true, Bool.and_eq_true,
    beq_iff_eq, decide_eq_true_eq]
  tauto

/-- C3: isDoubleProposal returns true exactly when the existing signing root
is not the zero-hash sentinel and differs from the incoming root; on the
concrete test vectors, a zero-hash existing root and a byte-equal existing
root give false and a differing nonzero existing root gives true. -/
theorem isDoubleProposal_c3 (incoming existing : Root) :
    (isDoubleProposal incoming existing = true ↔
        existing ≠ zeroHash ∧ existing ≠ incoming) ∧
      isDoubleProposal root1 zeroHash = false ∧
      isDoubleProposal root1 root1 = false ∧
      isDoubleProposal root1 root2 = true := by
  refine ⟨?_, by decide, by decide, by decide⟩
  simp only [isDoubleProposal, Bool.and_eq_true, Bool.not_eq_true',
    beq_eq_false_iff_ne, ne_eq]
  constructor
  · exact fun h => ⟨h.1, fun e => h.2 e.symm⟩
  · exact fun h => ⟨h.1, fun e => h.2 e.symm⟩

/-- C4: delivering the same signing root twice is idempotent; after one
delivery the recorded root equals the incoming root, so the second delivery
emits no finding, and a byte-equal root is never a double-proposal violation
either. -/
theorem deliverVote_c4_idempotent (recorded : Option Root) (r : Root) :
    (deliverVote (deliverVote recorded r).2 r).1 = SlashingKind.NotSlashable ∧
      isDoubleProposal r r = false := by
  have hrec : (deliverVote recorded r).2 = some r := by
    cases recorded with
    | none => rfl
    | some x =>
      simp only [deliverVote]
      split <;> rfl
  have hself : isDoubleProposal r r = false := by
    simp [isDoubleProposal]
  refine ⟨?_, hself⟩
  rw [hrec]
  simp [deliverVote, hself]

/-- C8: logSlashingEvent emits exactly one structured event, carrying the
human-readable classification and the validator index, for each of the
SurroundingVote, SurroundedVote and DoubleVote kinds, and emits nothing for
NotSlashable. -/
theorem logSlashingEvent_c8 (v : Nat) :
    logSlashingEvent ⟨SlashingKind.SurroundingVote, v⟩ =
        [⟨"Attester surrounding vote", v⟩] ∧
      logSlashingEvent ⟨SlashingKind.SurroundedVote, v⟩ =
        [⟨"Attester surrounded vote", v⟩] ∧
      logSlashingEvent ⟨SlashingKind.DoubleVote, v⟩ =
        [⟨"Attester double vote", v⟩] ∧
      logSlashingEvent ⟨SlashingKind.NotSlashable, v⟩ = [] := by
  exact ⟨rfl, rfl, rfl, rfl⟩

/-- Reading a bucket after one insertion: the inserted attestation lands at
the end of exactly the bucket of its key, every other bucket is unchanged. -/
theorem bucketOf_addToBucket (m : List (Nat × List CompactAttestation)) (k c : Nat)
    (a : CompactAttestation) :
    bucketOf (addToBucket m k a) c =
      if k = c then bucketOf m c ++ [a] else bucketOf m c := by
  induction m with
  | nil => by_cases h : k = c <;> simp [addToBucket, bucketOf, h]
  | cons hd tl ih =>
    obtain ⟨k2, l⟩ := hd
    by_cases hk : k2 = k
    · subst hk
      by_cases hc : k2 = c <;> simp [addToBucket, bucketOf, hc]
    · by_cases hc : k2 = c
      · subst hc
        have hkc : ¬ k = k2 := fun e => hk e.symm
        simp [addToBucket, bucketOf, hk, hkc]
      · simp [addToBucket, bucketOf, hk, hc, ih]

/-- Reading a bucket after inserting one attestation under a list of distinct
keys: the attestation is appended to exactly the buckets of those keys. -/
theorem bucketOf_foldl_add (cs : List Nat) (a : CompactAttestation) (c : Nat)
    (h : cs.Nodup) (m : List (Nat × List CompactAttestation)) :
    bucketOf (cs.foldl (fun m2 k => addToBucket m2 k a) m) c =
      bucketOf m c ++ if c ∈ cs then [a] else [] := by
  induction cs generalizing m with
  | nil => simp
  | cons k cs ih =>
    rw [List.nodup_cons] at h
    simp only [List.foldl_cons]
    rw [ih h.2, bucketOf_addToBucket]
    by_cases hkc : k = c
    · subst hkc
      simp [h.1]
    · have hck : ¬ c = k := fun e => hkc e.symm
      simp [hkc, hck, List.mem_cons]

/-- Reading a bucket of the grouping fold started from an arbitrary bucket
map: the bucket extends by the batch attestations whose key list contains the
key, in batch order. -/
theorem bucketOf_foldl_group (keysOf : CompactAttestation → List Nat)
    (hk : ∀ a, (keysOf a).Nodup) (atts : List CompactAttestation) (c : Nat) :
    ∀ m, bucketOf
        (atts.foldl (fun m2 a => (keysOf a).foldl (fun m3 k => addToBucket m3 k a) m2) m) c =
      bucketOf m c ++ atts.filter (fun a => decide (c ∈ keysOf a)) := by
  induction atts with
  | nil => simp
  | cons a atts ih =>
    intro m
    simp only [List.foldl_cons]
    rw [ih, bucketOf_foldl_add _ _ _ (hk a)]
    by_cases hc : c ∈ keysOf a
    · simp [hc, List.filter_cons]
    · simp [hc, List.filter_cons]

/-- Each bucket of a grouping with duplicate-free key lists is the filter of
the batch by membership of the bucket key in the key list. -/
theorem bucketOf_groupAttestations (keysOf : CompactAttestation → List Nat)
    (hk : ∀ a, (keysOf a).Nodup) (atts : List CompactAttestation) (c : Nat) :
    bucketOf (groupAttestations keysOf atts) c =
      atts.filter (fun a => decide (c ∈ keysOf a)) := by
  have h := bucketOf_foldl_group keysOf hk atts c []
  simpa [groupAttestations, bucketOf] using h

/-- C5: an attestation lies in the validator-chunk bucket c exactly when it
lies in the batch and some of its attesting indices has validator chunk index
c (integer division by the validator chunk size), and for a duplicate-free
batch no bucket holds duplicate entries, so each attestation appears exactly
once in each of the validator-chunk buckets it touches. -/
theorem groupByValidatorChunkIndex_c5 (p : Parameters)
    (atts : List CompactAttestation) (c : Nat) :
    (∀ a : CompactAttestation,
        a ∈ bucketOf (groupByValidatorChunkIndex p atts) c ↔
          a ∈ atts ∧ ∃ v ∈ a.attestingIndices, v / p.validatorChunkSize = c) ∧
      (atts.Nodup → (bucketOf (groupByValidatorChunkIndex p atts) c).Nodup) := by
  have hb : bucketOf (groupByValidatorChunkIndex p atts) c =
      atts.filter
        (fun a => decide (c ∈ (a.attestingIndices.map (validatorChunkIndex p)).dedup)) :=
    bucketOf_groupAttestations _ (fun a => List.nodup_dedup _) atts c
  constructor
  · intro a
    rw [hb, List.mem_filter]
    simp [List.mem_dedup, List.mem_map, validatorChunkIndex, eq_comm]
  · intro hnd
    rw [hb]
    exact hnd.filter _

/-- C5 witness: with validator chunk size two, the test attestation with
attesting indices zero, two and four lies in bucket one, and the bucket of
the singleton batch is duplicate free. -/
theorem groupByValidatorChunkIndex_c5_witness :
    (bucketOf (groupByValidatorChunkIndex ⟨0, 2, 0⟩ [⟨[0, 2, 4], 0, 0, []⟩]) 1).Nodup ∧
      (⟨[0, 2, 4], 0, 0, []⟩ : CompactAttestation) ∈
        bucketOf (groupByValidatorChunkIndex ⟨0, 2, 0⟩ [⟨[0, 2, 4], 0, 0, []⟩]) 1 :=
  ⟨(groupByValidatorChunkIndex_c5 ⟨0, 2, 0⟩ [⟨[0, 2, 4], 0, 0, []⟩] 1).2 (by decide),
    ((groupByValidatorChunkIndex_c5 ⟨0, 2, 0⟩ [⟨[0, 2, 4], 0, 0, []⟩] 1).1 _).2
      (by decide)⟩

/-- C6: an attestation lies in the epoch-chunk bucket c exactly when it lies
in the batch and the chunk index of its source epoch, the source epoch
modulo the history length divided by the chunk size, equals c; with chunk
size two and history length three, source epochs zero and one have chunk
index zero and source epoch two has chunk index one. -/
theorem groupByChunkIndex_c6 (p : Parameters) (atts : List CompactAttestation) (c : Nat) :
    (∀ a : CompactAttestation,
        a ∈ bucketOf (groupByChunkIndex p atts) c ↔
          a ∈ atts ∧ a.source % p.historyLength / p.chunkSize = c) ∧
      chunkIndex ⟨2, 0, 3⟩ 0 = 0 ∧ chunkIndex ⟨2, 0, 3⟩ 1 = 0 ∧
      chunkIndex ⟨2, 0, 3⟩ 2 = 1 := by
  refine ⟨?_, by decide, by decide, by decide⟩
  intro a
  have hb : bucketOf (groupByChunkIndex p atts) c =
      atts.filter (fun a => decide (c ∈ [chunkIndex p a.source])) :=
    bucketOf_groupAttestations _ (fun a => List.nodup_singleton _) atts c
  rw [hb, List.mem_filter]
  simp [chunkIndex, eq_comm]

/-- C7: both grouping operations return the empty mapping on the empty batch,
allocating no placeholder buckets. -/
theorem group_empty_c7 (p : Parameters) :
    groupByValidatorChunkIndex p [] = [] ∧ groupByChunkIndex p [] = [] :=
  ⟨rfl, rfl⟩

/-- Reading back a key just written into a bucket yields the written value. -/
theorem assocGet_assocPut_self (m : List (Bytes × Bytes)) (k v : Bytes) :
    assocGet (assocPut m k v) k = some v := by
  induction m with
  | nil => simp [assocPut, assocGet]
  | cons hd tl ih =>
    obtain ⟨k2, v2⟩ := hd
    by_cases hk : k2 = k <;> simp [assocPut, assocGet, hk, ih]

/-- C9: migrateArchivedIndex is idempotent.  Once the migrations bucket
records the archive_index_0 migration as completed, an invocation returns
immediately with every bucket unchanged; and whenever an invocation succeeds,
a second invocation on the resulting database succeeds and leaves it
unchanged, so running the migration twice in succession produces the same
database state as running it once. -/
theorem migrateArchivedIndex_c9 (decode : Bytes → Except String Nat) (db db2 : BoltDB) :
    (assocGet db.migrations migrationArchivedIndex0Key = some migrationCompleted →
        migrateArchivedIndex decode db = Except.ok db) ∧
      (migrateArchivedIndex decode db = Except.ok db2 →
        migrateArchivedIndex decode db2 = Except.ok db2) := by
  constructor
  · intro h
    simp [migrateArchivedIndex, h]
  · intro h
    by_cases hm : assocGet db.migrations migrationArchivedIndex0Key = some migrationCompleted
    · have hdb : db2 = db := by
        simp [migrateArchivedIndex, hm] at h
        exact h.symm
      subst hdb
      simp [migrateArchivedIndex, hm]
    · rw [migrateArchivedIndex, if_neg hm] at h
      split at h
      · rename_i har
        have hdb : db2 = db := by simpa using h.symm
        subst hdb
        rw [migrateArchivedIndex, if_neg hm, har]
      · rename_i bkt har
        split at h
        · simp at h
        · rename_i ssi hloop
          have hdb2 : db2 =
              { migrations :=
                  assocPut db.migrations migrationArchivedIndex0Key migrationCompleted,
                archivedRoot := none,
                blocks := db.blocks,
                stateSlotIndices := ssi,
                slotsHasObject := none } := by
            simpa using h.symm
          subst hdb2
          simp [migrateArchivedIndex, assocGet_assocPut_self]

/-- C9 witness: on a database with an empty migrations bucket and no
archived-root bucket the migration succeeds without change, and a repeated
run also succeeds without change. -/
theorem migrateArchivedIndex_c9_witness :
    migrateArchivedIndex (fun b => Except.ok b.length) ⟨[], none, [], [], none⟩ =
        Except.ok ⟨[], none, [], [], none⟩ ∧
      migrateArchivedIndex (fun b => Except.ok b.length)
          ⟨[(migrationArchivedIndex0Key, migrationCompleted)], none, [], [], none⟩ =
        Except.ok ⟨[(migrationArchivedIndex0Key, migrationCompleted)], none, [], [], none⟩ :=
  ⟨(migrateArchivedIndex_c9 (fun b => Except.ok b.length) ⟨[], none, [], [], none⟩
        ⟨[], none, [], [], none⟩).2 rfl,
    (migrateArchivedIndex_c9 (fun b => Except.ok b.length)
        ⟨[(migrationArchivedIndex0Key, migrationCompleted)], none, [], [], none⟩
        ⟨[], none, [], [], none⟩).1 (by decide)⟩

/-- Index loop of HandleEth1DataSlice: when the root computation never fails,
the loop fails with the index-out-of-range error of the first requested index
that reaches past the value slice. -/
theorem indicesLoop_first_out_of_range
    (rootFn : Option Eth1Data → Except Eth1SliceError Root)
    (val : List (Option Eth1Data)) (hok : ∀ d, ∃ r, rootFn d = Except.ok r) :
    ∀ (indices : List Nat) (i : Nat),
      indices.find? (fun j => decide (val.length ≤ j)) = some i →
      indicesLoop rootFn val indices =
        Except.error (Eth1SliceError.indexOutOfRange i val.length) := by
  intro indices
  induction indices with
  | nil => intro i h; simp [List.find?] at h
  | cons idx rest ih =>
    intro i h
    rw [List.find?_cons] at h
    by_cases hle : val.length ≤ idx
    · simp only [decide_eq_true hle] at h
      have hi : idx = i := by simpa using h
      subst hi
      simp [indicesLoop, hle]
    · simp only [decide_eq_false hle] at h
      obtain ⟨r, hr⟩ := hok (val.getD idx none)
      rw [indicesLoop, if_neg hle, hr, ih i h]

/-- C10: with convertAll unset, HandleEth1DataSlice returns the empty root
list without error on an empty eth1-data slice whatever the requested
indices, and on a nonempty slice whose requested indices contain one past the
last element it returns the index-out-of-range error for the first such
index, provided the per-element root computation itself does not fail
first. -/
theorem handleEth1DataSlice_c10 (rootFn : Option Eth1Data → Except Eth1SliceError Root)
    (val : List (Option Eth1Data)) (indices : List Nat) :
    HandleEth1DataSlice rootFn [] indices false = Except.ok [] ∧
      ((∀ d, ∃ r, rootFn d = Except.ok r) → val ≠ [] →
        ∀ i : Nat, indices.find? (fun j => decide (val.length ≤ j)) = some i →
          HandleEth1DataSlice rootFn val indices false =
            Except.error (Eth1SliceError.indexOutOfRange i val.length)) := by
  constructor
  · rfl
  · intro hok hval i h
    have hne : 0 < val.length := by
      cases val with
      | nil => exact absurd rfl hval
      | cons d rest => simp
    rw [HandleEth1DataSlice, if_neg (by simp), if_pos hne]
    exact indicesLoop_first_out_of_range rootFn val hok indices i h

/-- C10 witness: the empty slice with a requested index returns the empty
root list, and the one-element slice with requested indices zero and five
returns the index-out-of-range error for index five against length one. -/
theorem handleEth1DataSlice_c10_witness :
    HandleEth1DataSlice (fun _ => Except.ok []) [] [3] false = Except.ok [] ∧
      HandleEth1DataSlice (fun _ => Except.ok []) [none] [0, 5] false =
        Except.error (Eth1SliceError.indexOutOfRange 5 1) :=
  ⟨(handleEth1DataSlice_c10 (fun _ => Except.ok []) [] [3]).1,
    (handleEth1DataSlice_c10 (fun _ => Except.ok []) [none] [0, 5]).2
      (fun _ => ⟨[], rfl⟩) (by simp) 5 (by decide)⟩
